import Mathlib

/-!
Shallow embedding of the `bpool` buffer pool (Go) and verification of its
specification claims.

Modelling conventions:
* `time.Duration` (int64 nanoseconds) is modelled as `ℤ`.
* Go `float64` arithmetic is modelled exactly over `ℚ`; the Go conversion
  `int64(f)` / `time.Duration(f)` (truncation toward zero) is `truncQ`.
* Go byte slices are `List ℕ` (byte values are only copied, never computed).
* A Go `panic` is modelled as `none` in an `Option` result.
* The Go conversion `uint32(x)` of an `int64` keeps the low 32 bits,
  i.e. `x % 2^32` (arithmetic modulus).
-/

namespace BPool

/-- Go conversion of a float to an integer type: truncation toward zero. -/
def truncQ (x : ℚ) : ℤ := if 0 ≤ x then ⌊x⌋ else ⌈x⌉

/-- A byte, as stored in a Go byte slice. -/
abbrev Byte := ℕ

/-- The internal growable buffer (`type buffer struct { buf []byte; size int64 }`). -/
structure buffer where
  buf  : List Byte
  size : ℤ
deriving DecidableEq, Repr

/-- `func (b *buffer) Size() int64 { return atomic.LoadInt64(&b.size) }` -/
def buffer.Size (b : buffer) : ℤ := b.size

/-- `func (b *buffer) truncate(size int64) error`.
Grow branch appends `size - b.Size()` zero bytes; the shrink branch re-slices
the storage to the OLD size `b.Size()` (the store of the new `size` into
`b.size` happens only afterwards), which is a no-op on the storage whenever
`b.size ≤ b.buf.length`. Go's re-slice `b.buf[:b.Size()]` is modelled by
`List.take` (exact whenever `b.Size() ≤ len(b.buf)`, which holds in every
state this development evaluates it at). Always returns nil error. -/
def buffer.truncate (b : buffer) (size : ℤ) : buffer :=
  if b.Size < size then
    { buf := b.buf ++ List.replicate (size - b.Size).toNat 0, size := size }
  else
    { buf := b.buf.take b.Size.toNat, size := size }

/-- `func (b *buffer) allocate(size uint32) (int64, error)`:
panics (`none`) when `size == 0`, otherwise returns the old end offset and
grows the store via `truncate(off + size)`. The argument is the already
converted `uint32` value, as in the Go source. -/
def buffer.allocate (b : buffer) (size : ℕ) : Option (ℤ × buffer) :=
  if size = 0 then
    none
  else
    some (b.Size, b.truncate (b.Size + (size : ℤ)))

/-- Overwrite `p` into `l` starting at index `i` (Go `copy(l[i:i+len(p)], p)`,
in the in-bounds case). -/
def listOverwrite (l : List Byte) (i : ℕ) (p : List Byte) : List Byte :=
  l.take i ++ p ++ l.drop (i + p.length)

/-- `func (b *buffer) writeAt(p []byte, off int64) (int, error)`:
* `off == b.Size()`: append `p`, add `len(p)` to the size field;
* `off + len(p) > b.Size()` (and `off ≠ b.Size()`): panic (`none`);
* otherwise: in-place overwrite via `copy(b.buf[off:off+n], p)`; the final
  `if` models Go's slice-bounds panic on that expression (it never fires when
  `b.size = b.buf.length` and `0 ≤ off`). -/
def buffer.writeAt (b : buffer) (p : List Byte) (off : ℤ) : Option (ℕ × buffer) :=
  if off = b.Size then
    some (p.length, { buf := b.buf ++ p, size := b.size + p.length })
  else if b.Size < off + p.length then
    none
  else if 0 ≤ off ∧ off + p.length ≤ (b.buf.length : ℤ) then
    some (p.length, { buf := listOverwrite b.buf off.toNat p, size := b.size })
  else
    none

/-- `func (b *buffer) reset() (ok bool)`: size := 0, storage := nil, true. -/
def buffer.reset (_b : buffer) : Bool × buffer :=
  (true, { buf := [], size := 0 })

/-- `func (b *buffer) read(p []byte) (int, error)` with `n = len(p)`:
eof error (`none`) when `n > b.Size()`, else returns the first `n` bytes
(Go copies them into the caller's slice); the buffer itself is not mutated. -/
def buffer.read (b : buffer) (n : ℕ) : Option (List Byte) :=
  if b.Size < (n : ℤ) then none
  else some (b.buf.take n)

/-- `func (b *buffer) readAt(p []byte, off int64) (int, error)` with
`n = len(p)`: eof error when `n > b.Size() - off`, else the `n` bytes at
`off` (the final guard models Go's slice-bounds panic on
`b.buf[off:off+n]`, e.g. for negative `off`); no mutation. -/
def buffer.readAt (b : buffer) (n : ℕ) (off : ℤ) : Option (List Byte) :=
  if b.Size - off < (n : ℤ) then none
  else if 0 ≤ off ∧ off + n ≤ (b.buf.length : ℤ) then
    some ((b.buf.drop off.toNat).take n)
  else none

/-- The size/len(storage) invariant of the internal buffer (spec §3). -/
def buffer.wf (b : buffer) : Prop := b.size = (b.buf.length : ℤ)

instance (b : buffer) : Decidable b.wf := by
  unfold buffer.wf; infer_instance

/-- `Capacity` (bpool.go): shared capacity / backoff state. Durations are in
nanoseconds (`time.Duration`); `RandomizationFactor` is a `float64`. -/
structure Capacity where
  size                : ℤ
  targetSize          : ℤ
  InitialInterval     : ℤ
  RandomizationFactor : ℚ
  currentInterval     : ℤ
  MaxElapsedTime      : ℤ
  WriteBackOff        : Bool
deriving DecidableEq, Repr

/-- `func getRandomValueFromInterval(randomizationFactor, random float64,
currentInterval time.Duration) time.Duration`: returns
`time.Duration(minInterval + (random * (maxInterval - minInterval + 1)))`
where `minInterval = ci - delta`, `maxInterval = ci + delta`,
`delta = randomizationFactor * ci`. -/
def getRandomValueFromInterval (randomizationFactor random : ℚ)
    (currentInterval : ℤ) : ℤ :=
  let delta := randomizationFactor * (currentInterval : ℚ)
  let minInterval := (currentInterval : ℚ) - delta
  let maxInterval := (currentInterval : ℚ) + delta
  truncQ (minInterval + (random * (maxInterval - minInterval + 1)))

/-- `func (cap *Capacity) incrementCurrentInterval(multiplier float64)`:
`currentInterval := time.Duration(float64(currentInterval) * multiplier)`,
clamped down to `MaxElapsedTime`. All other fields unchanged. -/
def Capacity.incrementCurrentInterval (c : Capacity) (multiplier : ℚ) : Capacity :=
  let ci := truncQ ((c.currentInterval : ℚ) * multiplier)
  { c with currentInterval := if c.MaxElapsedTime < ci then c.MaxElapsedTime else ci }

/-- `func (cap *Capacity) Reset()`: `currentInterval := InitialInterval`. -/
def Capacity.Reset (c : Capacity) : Capacity :=
  { c with currentInterval := c.InitialInterval }

/-- `func (cap *Capacity) NextBackOff(multiplier float64) time.Duration`:
returns the randomized value computed from the PRE-increment
`currentInterval` (the deferred `incrementCurrentInterval` runs after the
return value is evaluated), paired with the updated capacity state.
`random` stands for the `rand.Float64()` sample. -/
def Capacity.NextBackOff (c : Capacity) (multiplier random : ℚ) : ℤ × Capacity :=
  (getRandomValueFromInterval c.RandomizationFactor random c.currentInterval,
   c.incrementCurrentInterval multiplier)

/-- `func (cap *Capacity) NewTicker() *time.Timer`, reduced to the duration it
arms the timer with and the capacity state after the call:
`factor := float64(cap.size) / float64(cap.targetSize)`;
`d := time.Duration(time.Duration(factor) * time.Millisecond)`;
if `d > 1` (nanosecond!) then `d = cap.NextBackOff(factor)`. The timer-pool
recycling is a pure optimization with no effect on the armed duration. -/
def Capacity.NewTicker (c : Capacity) (random : ℚ) : ℤ × Capacity :=
  let factor : ℚ := (c.size : ℚ) / (c.targetSize : ℚ)
  let d : ℤ := truncQ factor * 1000000
  if 1 < d then c.NextBackOff factor random else (d, c)

/-- `Buffer` (bpool.go): the public pooled buffer. The Go struct holds a
POINTER to the pool's shared `Capacity`; here the capacity state observed by
the buffer is carried in the structure and threaded through operations. -/
structure Buffer where
  cap      : Capacity
  internal : buffer
deriving DecidableEq, Repr

/-- State effect on the shared capacity of the write-backoff wait at the top
of `Buffer.Write` / `Buffer.WriteAt`: when `WriteBackOff` is set the code
blocks on `cap.NewTicker()`, whose construction may advance
`currentInterval`; otherwise the capacity is untouched. -/
def writeBackOffTick (c : Capacity) (random : ℚ) : Capacity :=
  if c.WriteBackOff then (c.NewTicker random).2 else c

/-- Go conversion `uint32(x)` of an int64: the low 32 bits. -/
def goUInt32 (x : ℤ) : ℕ := (x % (2 ^ 32 : ℤ)).toNat

/-- `func (buf *Buffer) Write(p []byte) (int, error)`: optional backoff wait,
`allocate(uint32(len(p)))`, `writeAt(p, off)`, then `cap.size += len(p)`;
returns `len(p)`. `none` models a panic in `allocate`/`writeAt`. -/
def Buffer.Write (b : Buffer) (p : List Byte) (random : ℚ) : Option (ℕ × Buffer) :=
  let cap0 := writeBackOffTick b.cap random
  match b.internal.allocate (goUInt32 (p.length : ℤ)) with
  | none => none
  | some (off, ib) =>
    match ib.writeAt p off with
    | none => none
    | some (_, ib2) =>
      some (p.length, { cap := { cap0 with size := cap0.size + (p.length : ℤ) },
                        internal := ib2 })

/-- `func (buf *Buffer) WriteAt(p []byte, off int64) (int, error)`: optional
backoff wait, then `writeAt(p, off)`; the shared `cap.size` is NOT touched;
returns `len(p)`. -/
def Buffer.WriteAt (b : Buffer) (p : List Byte) (off : ℤ) (random : ℚ) :
    Option (ℕ × Buffer) :=
  let cap0 := writeBackOffTick b.cap random
  match b.internal.writeAt p off with
  | none => none
  | some (_, ib2) => some (p.length, { cap := cap0, internal := ib2 })

/-- `func (buf *Buffer) Extend(size int64) (int64, error)`:
`allocate(uint32(size))` (note the 32-bit truncation of the grown amount),
then `cap.size += size` (the FULL 64-bit amount); returns the offset. -/
def Buffer.Extend (b : Buffer) (size : ℤ) : Option (ℤ × Buffer) :=
  match b.internal.allocate (goUInt32 size) with
  | none => none
  | some (off, ib) =>
    some (off, { cap := { b.cap with size := b.cap.size + size }, internal := ib })

/-- `func (buf *Buffer) Reset() (ok bool)`: `cap.size -= internal.size`
(the PRE-reset length), then `internal.reset()`. -/
def Buffer.Reset (b : Buffer) : Bool × Buffer :=
  ((b.internal.reset).1,
   { cap := { b.cap with size := b.cap.size - b.internal.size },
     internal := (b.internal.reset).2 })

/-- `func (buf *Buffer) Size() int64`. -/
def Buffer.Size (b : Buffer) : ℤ := b.internal.size

/-- `maxPoolSize = 27` (bpool.go). -/
def maxPoolSizeConst : ℤ := 27

/-- `maxBufferSize = (int64(1) << 34) - 1` (bpool.go). -/
def maxBufferSize : ℤ := 2 ^ 34 - 1

/-- `DefaultInitialInterval = 500 * time.Millisecond`, in nanoseconds. -/
def DefaultInitialInterval : ℤ := 500 * 1000000

/-- `DefaultRandomizationFactor = 0.5`. -/
def DefaultRandomizationFactor : ℚ := 1 / 2

/-- `DefaultMaxElapsedTime = 15 * time.Second`, in nanoseconds. -/
def DefaultMaxElapsedTime : ℤ := 15 * 1000000000

/-- `Options` (options.go). -/
structure Options where
  MaxPoolSize         : ℤ
  InitialInterval     : ℤ
  RandomizationFactor : ℚ
  MaxElapsedTime      : ℤ
  WriteBackOff        : Bool
deriving DecidableEq, Repr

/-- `func (src *Options) copyWithDefaults() *Options` (a nil source is the
all-zero `Options`). -/
def Options.copyWithDefaults (src : Option Options) : Options :=
  let opts := match src with
    | none => ⟨0, 0, 0, 0, false⟩
    | some o => o
  let opts := if opts.MaxPoolSize = 0 then { opts with MaxPoolSize := maxPoolSizeConst } else opts
  let opts := if opts.InitialInterval = 0 then { opts with InitialInterval := DefaultInitialInterval } else opts
  let opts := if opts.RandomizationFactor = 0 then { opts with RandomizationFactor := DefaultRandomizationFactor } else opts
  let opts := if opts.MaxElapsedTime = 0 then { opts with MaxElapsedTime := DefaultMaxElapsedTime } else opts
  opts

/-- `BufferPool` (bpool.go). The free-list channel `buf chan *Buffer` of
capacity `opts.MaxPoolSize` is modelled as a list (queue) of internal
buffers together with the channel capacity `bufCap`; the shared `Capacity`
is `cap`. -/
structure BufferPool where
  buf     : List buffer
  bufCap  : ℕ
  maxSize : ℤ
  cap     : Capacity
deriving DecidableEq, Repr

/-- `func NewBufferPool(size int64, opts *Options) *BufferPool`: clamps
`size` to `maxBufferSize`, builds the shared capacity (with
`cap.Reset()` setting `currentInterval := InitialInterval`), and sets
`maxSize := size / opts.MaxPoolSize` (Go int64 division truncates toward
zero: `Int.tdiv`). -/
def NewBufferPool (size : ℤ) (opts : Option Options) : BufferPool :=
  let opts := Options.copyWithDefaults opts
  let size := if maxBufferSize < size then maxBufferSize else size
  let c : Capacity :=
    { size := 0
      targetSize := size
      InitialInterval := opts.InitialInterval
      RandomizationFactor := opts.RandomizationFactor
      currentInterval := opts.InitialInterval
      MaxElapsedTime := opts.MaxElapsedTime
      WriteBackOff := opts.WriteBackOff }
  { buf := []
    bufCap := opts.MaxPoolSize.toNat
    maxSize := Int.tdiv size opts.MaxPoolSize
    cap := c }

/-- `func (pool *BufferPool) Capacity() float64`: `size / targetSize`
(exact-rational model of the float division). -/
def BufferPool.Capacity (pool : BufferPool) : ℚ :=
  (pool.cap.size : ℚ) / (pool.cap.targetSize : ℚ)

/-- `func (pool *BufferPool) Put(buf *Buffer)`:
1. `buf.Reset()` — decrements the shared counter by the buffer's CURRENT
   length and clears it;
2. `if buf.Size() > pool.maxSize { return }` — compares the POST-reset size;
3. `if pool.Capacity() < 1 { pool.cap.Reset() }`;
4. non-blocking send to the free-list channel (dropped when full).
The argument is the buffer's internal state; the shared capacity is the
pool's own `cap` field. -/
def BufferPool.Put (pool : BufferPool) (ib : buffer) : BufferPool :=
  let cap1 : BPool.Capacity := { pool.cap with size := pool.cap.size - ib.size }
  let ib1 := (ib.reset).2
  if pool.maxSize < ib1.size then
    { pool with cap := cap1 }
  else
    let cap2 := if (cap1.size : ℚ) / (cap1.targetSize : ℚ) < 1 then cap1.Reset else cap1
    if pool.buf.length < pool.bufCap then
      { pool with cap := cap2, buf := pool.buf ++ [ib1] }
    else
      { pool with cap := cap2 }

/-! ### Multi-buffer operation sequences over one shared capacity

For the capacity-accounting invariant, a pool-level state carries the shared
`Capacity` and the internal state of every live buffer; each operation acts
on one buffer (by index) exactly as the corresponding `Buffer` method does,
threading the shared capacity. -/

/-- Shared capacity plus the internal states of all live buffers. -/
structure PoolState where
  cap  : BPool.Capacity
  bufs : List buffer
deriving DecidableEq, Repr

/-- One public mutating operation on buffer `i` of the pool state. -/
inductive PoolOp where
  | write  (i : ℕ) (p : List Byte) (random : ℚ)
  | extend (i : ℕ) (size : ℤ)
  | reset  (i : ℕ)
deriving DecidableEq

/-- Apply one operation: buffer `i` is wrapped with the shared capacity, the
corresponding `Buffer` method runs, and the updated capacity and buffer are
stored back. `none` models a panic (an aborted run). -/
def PoolState.step (s : PoolState) (op : PoolOp) : Option PoolState :=
  match op with
  | .write i p random =>
    match s.bufs[i]? with
    | none => none
    | some ib =>
      match Buffer.Write ⟨s.cap, ib⟩ p random with
      | none => none
      | some (_, b') => some ⟨b'.cap, s.bufs.set i b'.internal⟩
  | .extend i size =>
    match s.bufs[i]? with
    | none => none
    | some ib =>
      match Buffer.Extend ⟨s.cap, ib⟩ size with
      | none => none
      | some (_, b') => some ⟨b'.cap, s.bufs.set i b'.internal⟩
  | .reset i =>
    match s.bufs[i]? with
    | none => none
    | some ib =>
      some ⟨(Buffer.Reset ⟨s.cap, ib⟩).2.cap, s.bufs.set i (Buffer.Reset ⟨s.cap, ib⟩).2.internal⟩

/-- Run a sequence of operations, aborting on the first panic. -/
def PoolState.run (s : PoolState) : List PoolOp → Option PoolState
  | [] => some s
  | op :: ops =>
    match s.step op with
    | none => none
    | some s' => s'.run ops

/-- The counter invariant: the shared `used` counter equals the sum of the
current lengths of all live buffers. -/
def PoolState.counterInv (s : PoolState) : Prop :=
  s.cap.size = (s.bufs.map buffer.size).sum

instance (s : PoolState) : Decidable s.counterInv := by
  unfold PoolState.counterInv; infer_instance

/-- The capacity state after `k` repeated applications of
`incrementCurrentInterval` with a fixed multiplier (the state evolution of
`k` successive `NextBackOff(m)` calls). -/
def backoffIter (c : Capacity) (m : ℚ) : ℕ → Capacity :=
  fun k => (fun st => st.incrementCurrentInterval m)^[k] c

/-- A capacity at half its target (used 1 of 2), for concrete evaluation. -/
def capHalfFull : Capacity := ⟨1, 2, 500000000, 1/2, 500000000, 15000000000, false⟩

/-- A capacity with current interval 4, for concrete evaluation of the
randomized sampling formula. -/
def capSmallInterval : Capacity := ⟨0, 1, 500, 1/2, 4, 1000000, false⟩

/-- A capacity with current interval 100 and ceiling 10^6, for concrete
evaluation of backoff stepping. -/
def capStep : Capacity := ⟨0, 1, 500, 1/2, 100, 1000000, false⟩

/-- A pooled buffer over a write-backoff capacity that is at twice its
target (fullness 10/5), for concrete evaluation. -/
def bufBackOff : Buffer := ⟨⟨10, 5, 500, 1/2, 100, 1000000, true⟩, ⟨[1], 1⟩⟩

/-- A pooled buffer with write-backoff disabled, for concrete evaluation. -/
def bufPlain : Buffer := ⟨⟨0, 100, 500, 1/2, 100, 1000000, false⟩, ⟨[1,2,3], 3⟩⟩

/-- The pool built by `NewBufferPool(81, {MaxPoolSize: 27, ...})`, whose
per-buffer limit is `81 / 27 = 3`. -/
def poolEx : BufferPool := NewBufferPool 81 (some ⟨27, 500, 1/2, 1000, false⟩)

/-- A 10-byte buffer — larger than `poolEx`'s per-buffer limit of 3. -/
def oversizedBuf : buffer := ⟨List.replicate 10 7, 10⟩

/-! ## Helper lemmas -/

theorem truncQ_of_nonneg (x : ℚ) (hx : 0 ≤ x) : truncQ x = ⌊x⌋ :=
  if_pos hx

theorem truncQ_intCast (n : ℤ) : truncQ (n : ℚ) = n := by
  unfold truncQ
  split
  · exact Int.floor_intCast n
  · exact Int.ceil_intCast n

/-- The write-backoff tick touches at most `currentInterval`. -/
theorem writeBackOffTick_frame (c : Capacity) (random : ℚ) :
    (writeBackOffTick c random).size = c.size ∧
    (writeBackOffTick c random).targetSize = c.targetSize ∧
    (writeBackOffTick c random).InitialInterval = c.InitialInterval ∧
    (writeBackOffTick c random).RandomizationFactor = c.RandomizationFactor ∧
    (writeBackOffTick c random).MaxElapsedTime = c.MaxElapsedTime ∧
    (writeBackOffTick c random).WriteBackOff = c.WriteBackOff := by
  unfold writeBackOffTick Capacity.NewTicker Capacity.NextBackOff
    Capacity.incrementCurrentInterval
  dsimp only
  split
  · split <;> simp_all
  · simp_all

theorem writeBackOffTick_off (c : Capacity) (random : ℚ)
    (h : c.WriteBackOff = false) : writeBackOffTick c random = c := by
  unfold writeBackOffTick
  simp [h]

/-- `truncate` always stores its argument into the size field. -/
theorem truncate_size (b : buffer) (sz : ℤ) : (b.truncate sz).size = sz := by
  unfold buffer.truncate
  split <;> rfl

/-- Length of an in-bounds overwrite. -/
theorem listOverwrite_length (l : List Byte) (i : ℕ) (p : List Byte)
    (h : i + p.length ≤ l.length) :
    (listOverwrite l i p).length = l.length := by
  unfold listOverwrite
  simp only [List.length_append, List.length_take, List.length_drop]
  omega

/-! ## Claim theorems -/

/-- C3: `writeAt(data, offset)` on a well-formed buffer appends (the only
growing case) exactly when `offset` equals the current length; overwrites in
place without changing the length when `offset ≠ length` and
`offset + len(data) ≤ length` (for non-negative offsets); and panics —
never silently truncates or extends — when `offset + len(data) > length`
with `offset ≠ length`. -/
theorem c3_writeAt_cases (b : buffer) (p : List Byte) (off : ℤ) (hwf : b.wf) :
    (off = b.Size →
      b.writeAt p off = some (p.length, ⟨b.buf ++ p, b.size + p.length⟩)) ∧
    (off ≠ b.Size → 0 ≤ off → off + p.length ≤ b.Size →
      b.writeAt p off = some (p.length, ⟨listOverwrite b.buf off.toNat p, b.size⟩) ∧
      (listOverwrite b.buf off.toNat p).length = b.buf.length) ∧
    (off ≠ b.Size → b.Size < off + p.length → b.writeAt p off = none) := by
  unfold buffer.wf at hwf
  refine ⟨?_, ?_, ?_⟩
  · intro h
    unfold buffer.writeAt
    rw [if_pos h]
  · intro hne hnn hle
    unfold buffer.Size at hne hle
    unfold buffer.writeAt buffer.Size
    rw [if_neg hne, if_neg (by omega), if_pos (by constructor <;> omega)]
    exact ⟨rfl, listOverwrite_length _ _ _ (by omega)⟩
  · intro hne hgt
    unfold buffer.Size at hne hgt
    unfold buffer.writeAt buffer.Size
    rw [if_neg hne, if_pos hgt]

/-- Witness for C3: on the well-formed buffer `[1,2,3]`, an in-place
overwrite of `[9,9]` at offset 1 keeps the size field and storage length at
3 and yields `[1,9,9]`. -/
theorem c3_witness :
    buffer.writeAt ⟨[1,2,3], 3⟩ [9,9] 1 = some (2, ⟨[1,9,9], 3⟩) := by
  have h := (c3_writeAt_cases ⟨[1,2,3], 3⟩ [9,9] 1 (by decide)).2.1
    (by decide) (by decide) (by decide)
  exact h.1

/-- C4 (code bug): the `length == len(storage)` invariant is NOT preserved
by `truncate` in the shrink direction: starting from the well-formed 3-byte
buffer, `truncate 1` re-slices the storage to the OLD length (a no-op) and
then stores the new size, leaving size field 1 against 3 stored bytes. -/
theorem c4_truncate_invariant_bug :
    (⟨[7,7,7], 3⟩ : buffer).wf ∧
    ((⟨[7,7,7], 3⟩ : buffer).truncate 1).size = 1 ∧
    ((⟨[7,7,7], 3⟩ : buffer).truncate 1).buf.length = 3 ∧
    ¬ ((⟨[7,7,7], 3⟩ : buffer).truncate 1).wf := by decide

/-- C5 (code bug): `truncate(newSize)` does grow (zero-filled) to exactly
`newSize`, but in the shrink direction it leaves the storage at its old
length instead of shrinking it to `newSize`: `b.buf = b.buf[:b.Size()]`
slices to the pre-update size, a no-op. -/
theorem c5_truncate_no_shrink :
    ((⟨[1,2,3,4], 4⟩ : buffer).truncate 2).buf = [1,2,3,4] ∧
    ((⟨[1,2,3,4], 4⟩ : buffer).truncate 2).size = 2 ∧
    ((⟨[1,2,3,4], 4⟩ : buffer).truncate 2).buf.length ≠ 2 ∧
    ((⟨[], 0⟩ : buffer).truncate 3).buf = [0, 0, 0] := by decide

/-- C1 counterexample: with used = 1 and target = 2 the fullness quotient is
1/2 ≤ 1, yet the armed delay is 0 ns rather than the claimed 1/2 millisecond
(500000 ns): `time.Duration(factor)` truncates the quotient to a whole
number before the millisecond scaling. -/
theorem c1_counterexample :
    (capHalfFull.NewTicker 0).1 = 0 ∧
    (1 : ℚ) / 2 * 1000000 = 500000 ∧ ((0 : ℚ) ≠ 500000) := by
  refine ⟨?_, by norm_num, by norm_num⟩
  have h0 : truncQ ((capHalfFull.size : ℚ) / (capHalfFull.targetSize : ℚ)) = 0 := by
    rw [truncQ_of_nonneg _ (by norm_num [capHalfFull])]
    refine Int.floor_eq_zero_iff.mpr ?_
    constructor <;> norm_num [capHalfFull]
  unfold Capacity.NewTicker
  dsimp only
  rw [h0]
  norm_num

/-- C1 (amended): with fullness quotient q = used/target (used ≥ 0,
target > 0), when q < 1 the armed delay is ⌊q⌋·1ms = 0 and the capacity
state is untouched; when q ≥ 1 the call is exactly `NextBackOff(q)`. The
branch is decided by whether ⌊q⌋ milliseconds exceeds one NANOSECOND,
i.e. by q ≥ 1 — not by q > 1. -/
theorem c1_newTicker_amended (c : Capacity) (random : ℚ)
    (hs : 0 ≤ c.size) (ht : 0 < c.targetSize) :
    ((c.size : ℚ) / (c.targetSize : ℚ) < 1 → c.NewTicker random = (0, c)) ∧
    (1 ≤ (c.size : ℚ) / (c.targetSize : ℚ) →
      c.NewTicker random = c.NextBackOff ((c.size : ℚ) / (c.targetSize : ℚ)) random) := by
  have hq0 : (0 : ℚ) ≤ (c.size : ℚ) / (c.targetSize : ℚ) :=
    div_nonneg (by exact_mod_cast hs) (by exact_mod_cast ht.le)
  constructor
  · intro hlt
    have h0 : truncQ ((c.size : ℚ) / (c.targetSize : ℚ)) = 0 := by
      rw [truncQ_of_nonneg _ hq0]
      exact Int.floor_eq_zero_iff.mpr ⟨hq0, hlt⟩
    unfold Capacity.NewTicker
    dsimp only
    rw [h0]
    norm_num
  · intro hge
    have h1 : 1 ≤ truncQ ((c.size : ℚ) / (c.targetSize : ℚ)) := by
      rw [truncQ_of_nonneg _ hq0]
      exact Int.le_floor.mpr (by exact_mod_cast hge)
    unfold Capacity.NewTicker
    dsimp only
    rw [if_pos (by omega)]

/-- Witness for C1: a below-target capacity (used 1 of 2) yields a zero
delay and an unchanged state. -/
theorem c1_witness : capHalfFull.NewTicker 0 = (0, capHalfFull) :=
  (c1_newTicker_amended capHalfFull 0
    (by norm_num [capHalfFull]) (by norm_num [capHalfFull])).1 (by norm_num [capHalfFull])

/-- C7 counterexample: with randomization factor 1/2 ∈ [0,1], random sample
1 ∈ [0,1] and current interval 4, `NextBackOff` returns 7, which exceeds
ci·(1+r) = 6: the sampling formula adds `+1` to the interval width. -/
theorem c7_counterexample :
    (capSmallInterval.NextBackOff 2 1).1 = 7 ∧
    ¬ ((7 : ℚ) ≤ (4 : ℚ) * (1 + 1/2)) := by
  refine ⟨?_, by norm_num⟩
  show getRandomValueFromInterval capSmallInterval.RandomizationFactor 1
    capSmallInterval.currentInterval = 7
  unfold getRandomValueFromInterval
  dsimp only
  rw [show (capSmallInterval.currentInterval : ℚ) -
        capSmallInterval.RandomizationFactor * (capSmallInterval.currentInterval : ℚ) +
      1 * ((capSmallInterval.currentInterval : ℚ) +
          capSmallInterval.RandomizationFactor * (capSmallInterval.currentInterval : ℚ) -
        ((capSmallInterval.currentInterval : ℚ) -
          capSmallInterval.RandomizationFactor * (capSmallInterval.currentInterval : ℚ)) + 1) =
      ((7 : ℤ) : ℚ) from by norm_num [capSmallInterval]]
  exact truncQ_intCast 7

/-- C7 (amended): for randomization factor r ∈ [0,1], random sample ∈ [0,1]
and non-negative current interval ci, the delay returned by `NextBackOff`
lies in the slightly wider interval (ci·(1−r) − 1, ci·(1+r) + 1] (the
sampled real lies in [ci·(1−r), ci·(1+r) + 1] before truncation), and the
interval advances to min(⌊ci·multiplier⌋, maxElapsedTime). -/
theorem c7_nextBackOff_amended (c : Capacity) (m random : ℚ)
    (hr0 : 0 ≤ c.RandomizationFactor) (hr1 : c.RandomizationFactor ≤ 1)
    (hs0 : 0 ≤ random) (hs1 : random ≤ 1)
    (hci : 0 ≤ c.currentInterval) :
    (c.currentInterval : ℚ) * (1 - c.RandomizationFactor) - 1 <
      ((c.NextBackOff m random).1 : ℚ) ∧
    ((c.NextBackOff m random).1 : ℚ) ≤
      (c.currentInterval : ℚ) * (1 + c.RandomizationFactor) + 1 ∧
    (c.NextBackOff m random).2 =
      { c with currentInterval :=
          (min (truncQ ((c.currentInterval : ℚ) * m)) c.MaxElapsedTime) } := by
  have hciq : (0 : ℚ) ≤ (c.currentInterval : ℚ) := by exact_mod_cast hci
  set r := c.RandomizationFactor with hrdef
  set ci : ℚ := (c.currentInterval : ℚ) with hcidef
  have hdelta : (0 : ℚ) ≤ r * ci := mul_nonneg hr0 hciq
  have hspread : (0 : ℚ) ≤ (ci + r * ci) - (ci - r * ci) + 1 := by linarith
  have hval : (c.NextBackOff m random).1 =
      truncQ ((ci - r * ci) + random * ((ci + r * ci) - (ci - r * ci) + 1)) := rfl
  set v : ℚ := (ci - r * ci) + random * ((ci + r * ci) - (ci - r * ci) + 1) with hvdef
  have hvmin : ci - r * ci ≤ v := le_add_of_nonneg_right (mul_nonneg hs0 hspread)
  have hlow : (0 : ℚ) ≤ ci - r * ci := by nlinarith
  have hv0 : (0 : ℚ) ≤ v := le_trans hlow hvmin
  have hfl : truncQ v = ⌊v⌋ := truncQ_of_nonneg v hv0
  have hvmax : v ≤ (ci + r * ci) + 1 := by
    have h := mul_le_mul_of_nonneg_right hs1 hspread
    rw [one_mul] at h
    linarith
  refine ⟨?_, ?_, ?_⟩
  · rw [hval, hfl]
    have h := Int.sub_one_lt_floor v
    linarith
  · rw [hval, hfl]
    have h := Int.floor_le v
    linarith
  · show c.incrementCurrentInterval m = _
    unfold Capacity.incrementCurrentInterval
    dsimp only
    rw [show (if c.MaxElapsedTime < truncQ ((c.currentInterval : ℚ) * m)
          then c.MaxElapsedTime else truncQ ((c.currentInterval : ℚ) * m)) =
        min (truncQ ((c.currentInterval : ℚ) * m)) c.MaxElapsedTime from by
      split <;> omega]

/-- Witness for C7: a concrete backoff step (r = 1/2, random = 1/2,
ci = 100, multiplier 2) satisfies the amended bounds and the interval
update. -/
theorem c7_witness :
    (capStep.currentInterval : ℚ) * (1 - capStep.RandomizationFactor) - 1 <
      ((capStep.NextBackOff 2 (1/2)).1 : ℚ) ∧
    ((capStep.NextBackOff 2 (1/2)).1 : ℚ) ≤
      (capStep.currentInterval : ℚ) * (1 + capStep.RandomizationFactor) + 1 ∧
    (capStep.NextBackOff 2 (1/2)).2 =
      { capStep with currentInterval :=
          (min (truncQ ((capStep.currentInterval : ℚ) * 2)) capStep.MaxElapsedTime) } :=
  c7_nextBackOff_amended capStep 2 (1/2)
    (by norm_num [capStep]) (by norm_num [capStep]) (by norm_num) (by norm_num)
    (by norm_num [capStep])

theorem incrementCurrentInterval_max (c : Capacity) (m : ℚ) :
    (c.incrementCurrentInterval m).MaxElapsedTime = c.MaxElapsedTime := rfl

theorem currentInterval_le_trunc (c : Capacity) (m : ℚ) (hm : 1 ≤ m)
    (h0 : 0 ≤ c.currentInterval) :
    c.currentInterval ≤ truncQ ((c.currentInterval : ℚ) * m) := by
  have h0q : (0 : ℚ) ≤ (c.currentInterval : ℚ) := by exact_mod_cast h0
  rw [truncQ_of_nonneg _ (by nlinarith)]
  exact Int.le_floor.mpr (le_mul_of_one_le_right h0q hm)

/-- One `incrementCurrentInterval` step with a multiplier ≥ 1 from a state
in `[0, MaxElapsedTime]` is non-decreasing, stays within the ceiling, and
fixes the ceiling. -/
theorem incrementCurrentInterval_step (c : Capacity) (m : ℚ) (hm : 1 ≤ m)
    (h0 : 0 ≤ c.currentInterval) (hle : c.currentInterval ≤ c.MaxElapsedTime) :
    c.currentInterval ≤ (c.incrementCurrentInterval m).currentInterval ∧
    (c.incrementCurrentInterval m).currentInterval ≤ c.MaxElapsedTime ∧
    0 ≤ (c.incrementCurrentInterval m).currentInterval ∧
    (c.currentInterval = c.MaxElapsedTime →
      (c.incrementCurrentInterval m).currentInterval = c.MaxElapsedTime) := by
  have ht := currentInterval_le_trunc c m hm h0
  unfold Capacity.incrementCurrentInterval
  dsimp only
  split <;> (refine ⟨?_, ?_, ?_, ?_⟩ <;> omega)

theorem backoffIter_succ (c : Capacity) (m : ℚ) (k : ℕ) :
    backoffIter c m (k + 1) = (backoffIter c m k).incrementCurrentInterval m := by
  unfold backoffIter
  exact Function.iterate_succ_apply' _ _ _

theorem backoffIter_inv (c : Capacity) (m : ℚ) (hm : 1 ≤ m)
    (h0 : 0 ≤ c.currentInterval) (hle : c.currentInterval ≤ c.MaxElapsedTime) :
    ∀ k, 0 ≤ (backoffIter c m k).currentInterval ∧
      (backoffIter c m k).currentInterval ≤ c.MaxElapsedTime ∧
      (backoffIter c m k).MaxElapsedTime = c.MaxElapsedTime := by
  intro k
  induction k with
  | zero => exact ⟨h0, hle, rfl⟩
  | succ n ih =>
    obtain ⟨i0, i1, i2⟩ := ih
    have hstep := incrementCurrentInterval_step (backoffIter c m n) m hm i0
      (by rw [i2]; exact i1)
    rw [backoffIter_succ]
    refine ⟨hstep.2.2.1, ?_, ?_⟩
    · have h := hstep.2.1
      rw [i2] at h
      exact h
    · rw [incrementCurrentInterval_max, i2]

/-- C8: for a fixed multiplier > 1, repeatedly applying the
`NextBackOff` interval update (`incrementCurrentInterval`) from a state
with `0 ≤ currentInterval ≤ MaxElapsedTime` yields a non-decreasing
sequence of intervals that never exceeds `MaxElapsedTime`, and once the
interval equals `MaxElapsedTime` it stays there. -/
theorem c8_backoff_monotone (c : Capacity) (m : ℚ) (hm : 1 < m)
    (h0 : 0 ≤ c.currentInterval) (hle : c.currentInterval ≤ c.MaxElapsedTime) (k : ℕ) :
    (backoffIter c m k).currentInterval ≤ (backoffIter c m (k + 1)).currentInterval ∧
    (backoffIter c m k).currentInterval ≤ c.MaxElapsedTime ∧
    ((backoffIter c m k).currentInterval = c.MaxElapsedTime →
      (backoffIter c m (k + 1)).currentInterval = c.MaxElapsedTime) := by
  obtain ⟨i0, i1, i2⟩ := backoffIter_inv c m hm.le h0 hle k
  have hstep := incrementCurrentInterval_step (backoffIter c m k) m hm.le i0
    (by rw [i2]; exact i1)
  rw [backoffIter_succ]
  exact ⟨hstep.1, i1, fun h => (hstep.2.2.2 (h.trans i2.symm)).trans i2⟩

/-- Witness for C8: one concrete step (interval 100, multiplier 2,
ceiling 10^6) of the iterated backoff update. -/
theorem c8_witness :
    (backoffIter capStep 2 1).currentInterval ≤ (backoffIter capStep 2 2).currentInterval ∧
    (backoffIter capStep 2 1).currentInterval ≤ capStep.MaxElapsedTime ∧
    ((backoffIter capStep 2 1).currentInterval = capStep.MaxElapsedTime →
      (backoffIter capStep 2 2).currentInterval = capStep.MaxElapsedTime) :=
  c8_backoff_monotone capStep 2 (by norm_num)
    (by norm_num [capStep]) (by norm_num [capStep]) 1

/-- C10: `Buffer.Write` with an empty slice and `Buffer.Extend` with size 0
always panic (both reach `allocate` with a zero `uint32` argument, which
panics), rather than returning a value or an error. -/
theorem c10_zero_size_panics (b : Buffer) (random : ℚ) :
    b.Write [] random = none ∧ b.Extend 0 = none := by
  constructor
  · unfold Buffer.Write
    simp [buffer.allocate, goUInt32]
  · unfold Buffer.Extend
    simp [buffer.allocate, goUInt32]

/-- C9 counterexample: with write-backoff enabled and the pool at twice its
target, a successful `Buffer.WriteAt` leaves the shared `used` counter at 10
but advances the shared `currentInterval` from 100 to 200 — so the claim
that all capacity state besides nothing is unchanged fails for
`currentInterval`. -/
theorem c9_counterexample :
    (bufBackOff.WriteAt [7] 0 0).map (fun r => (r.2.cap.size, r.2.cap.currentInterval)) =
      some (10, 200) ∧
    bufBackOff.cap.currentInterval = 100 ∧ ((200 : ℤ) ≠ 100) := by
  refine ⟨?_, rfl, by norm_num⟩
  unfold bufBackOff Buffer.WriteAt writeBackOffTick Capacity.NewTicker
    Capacity.NextBackOff Capacity.incrementCurrentInterval
  dsimp only
  rw [show truncQ ((((10 : ℤ) : ℚ)) / (((5 : ℤ) : ℚ))) = 2 from by
        rw [show (((10 : ℤ) : ℚ)) / (((5 : ℤ) : ℚ)) = ((2 : ℤ) : ℚ) from by norm_num,
          truncQ_intCast],
      show truncQ ((((100 : ℤ) : ℚ)) * ((((10 : ℤ) : ℚ)) / (((5 : ℤ) : ℚ)))) = 200 from by
        rw [show (((100 : ℤ) : ℚ)) * ((((10 : ℤ) : ℚ)) / (((5 : ℤ) : ℚ))) = ((200 : ℤ) : ℚ)
              from by norm_num,
          truncQ_intCast]]
  norm_num [buffer.writeAt, listOverwrite, buffer.Size]

/-- C9 (amended): a successful `Buffer.WriteAt` never modifies the shared
`used` counter (`cap.size`), nor the target size, intervals' configuration
or mode — in both the overwrite and the append case; when write-backoff is
disabled the capacity state is completely unchanged (when it is enabled,
`currentInterval` may advance through the admission ticker). -/
theorem c9_writeAt_frame (b : Buffer) (p : List Byte) (off : ℤ) (random : ℚ)
    (n : ℕ) (b' : Buffer) (h : b.WriteAt p off random = some (n, b')) :
    b'.cap.size = b.cap.size ∧
    b'.cap.targetSize = b.cap.targetSize ∧
    b'.cap.InitialInterval = b.cap.InitialInterval ∧
    b'.cap.RandomizationFactor = b.cap.RandomizationFactor ∧
    b'.cap.MaxElapsedTime = b.cap.MaxElapsedTime ∧
    b'.cap.WriteBackOff = b.cap.WriteBackOff ∧
    (b.cap.WriteBackOff = false → b'.cap = b.cap) := by
  unfold Buffer.WriteAt at h
  rcases hw : b.internal.writeAt p off with _ | r
  · rw [hw] at h
    exact absurd h (by simp)
  · rw [hw] at h
    dsimp only at h
    have hb : b' = ⟨writeBackOffTick b.cap random, r.2⟩ := by
      cases r
      simp only [Option.some.injEq, Prod.mk.injEq] at h
      exact h.2.symm
    subst hb
    obtain ⟨f1, f2, f3, f4, f5, f6⟩ := writeBackOffTick_frame b.cap random
    exact ⟨f1, f2, f3, f4, f5, f6, fun hoff => writeBackOffTick_off b.cap random hoff⟩

/-- Witness for C9: a successful overwrite through `WriteAt` with
write-backoff disabled leaves the whole capacity state unchanged. -/
theorem c9_witness :
    (⟨bufPlain.cap, ⟨[9,2,3], 3⟩⟩ : Buffer).cap.size = bufPlain.cap.size ∧
    (⟨bufPlain.cap, ⟨[9,2,3], 3⟩⟩ : Buffer).cap.targetSize = bufPlain.cap.targetSize ∧
    (⟨bufPlain.cap, ⟨[9,2,3], 3⟩⟩ : Buffer).cap.InitialInterval = bufPlain.cap.InitialInterval ∧
    (⟨bufPlain.cap, ⟨[9,2,3], 3⟩⟩ : Buffer).cap.RandomizationFactor = bufPlain.cap.RandomizationFactor ∧
    (⟨bufPlain.cap, ⟨[9,2,3], 3⟩⟩ : Buffer).cap.MaxElapsedTime = bufPlain.cap.MaxElapsedTime ∧
    (⟨bufPlain.cap, ⟨[9,2,3], 3⟩⟩ : Buffer).cap.WriteBackOff = bufPlain.cap.WriteBackOff ∧
    (bufPlain.cap.WriteBackOff = false → (⟨bufPlain.cap, ⟨[9,2,3], 3⟩⟩ : Buffer).cap = bufPlain.cap) :=
  c9_writeAt_frame bufPlain [9] 0 0 1 ⟨bufPlain.cap, ⟨[9,2,3], 3⟩⟩ (by rfl)

/-- The concrete shape of `poolEx` after applying the construction-time
defaults and the per-buffer-limit division `81 / 27 = 3`. -/
theorem poolEx_eval : poolEx = ⟨[], 27, 3, ⟨0, 81, 500, 1/2, 500, 1000, false⟩⟩ := by
  unfold poolEx NewBufferPool Options.copyWithDefaults maxBufferSize
  norm_num
  exact ⟨rfl, rfl⟩

/-- C2 counterexample: `Put` resets the buffer BEFORE the oversize check, so
the check compares the post-reset size 0; a buffer of length 10 — over the
per-buffer limit `maxSize = 81/27 = 3` of `poolEx` — is therefore still
added (in reset form) to the previously empty free list, instead of being
discarded as the claim states. -/
theorem c2_counterexample :
    poolEx.maxSize < oversizedBuf.size ∧
    poolEx.buf = [] ∧
    (poolEx.Put oversizedBuf).buf = [⟨[], 0⟩] := by
  rw [poolEx_eval]
  refine ⟨by decide, rfl, by decide⟩

/-- C2 (amended): `Put` resets the buffer before the size check, so the
oversize test never discards anything; every buffer `Put` adds to the free
list is the reset buffer of size 0 — hence (for that different reason) no
buffer of length exceeding `target/maxPoolSize` appears in the free list
after `Put`. -/
theorem c2_put_amended (pool : BufferPool) (ib : buffer) (x : buffer)
    (hx : x ∈ (pool.Put ib).buf) : x ∈ pool.buf ∨ x.size = 0 := by
  unfold BufferPool.Put at hx
  dsimp only at hx
  split at hx
  · exact Or.inl hx
  · split at hx
    · rw [List.mem_append] at hx
      rcases hx with h | h
      · exact Or.inl h
      · right
        rw [List.mem_singleton] at h
        subst h
        rfl
    · exact Or.inl hx

/-- Witness for C2: the buffer that `Put` adds to `poolEx`'s free list has
size 0. -/
theorem c2_witness :
    (⟨[], 0⟩ : buffer) ∈ poolEx.buf ∨ (⟨[], 0⟩ : buffer).size = 0 :=
  c2_put_amended poolEx oversizedBuf ⟨[], 0⟩ (by rw [poolEx_eval]; decide)

theorem goUInt32_le (n : ℕ) : goUInt32 (n : ℤ) ≤ n := by
  unfold goUInt32
  omega

theorem goUInt32_eq_of_lt (s : ℤ) (h0 : 0 ≤ s) (h : s < 2 ^ 32) :
    (goUInt32 s : ℤ) = s := by
  unfold goUInt32
  omega

/-- Sum of sizes after replacing element `i`. -/
theorem sum_map_size_set (l : List buffer) (i : ℕ) (ib b' : buffer)
    (h : l[i]? = some ib) :
    ((l.set i b').map buffer.size).sum = (l.map buffer.size).sum - ib.size + b'.size := by
  induction l generalizing i with
  | nil => simp at h
  | cons a t ihl =>
    cases i with
    | zero =>
      simp only [List.getElem?_cons_zero, Option.some.injEq] at h
      subst h
      simp only [List.set, List.map_cons, List.sum_cons]
      ring
    | succ n =>
      simp only [List.getElem?_cons_succ] at h
      simp only [List.set, List.map_cons, List.sum_cons, ihl n h]
      ring

/-- Sizes after a successful `Buffer.Write`: both the shared counter and the
buffer length grow by exactly `len(p)`. -/
theorem Write_some_sizes (b : Buffer) (p : List Byte) (random : ℚ)
    (n : ℕ) (b' : Buffer) (h : b.Write p random = some (n, b')) :
    b'.cap.size = b.cap.size + p.length ∧
    b'.internal.size = b.internal.size + p.length := by
  unfold Buffer.Write at h
  dsimp only at h
  rcases ha : b.internal.allocate (goUInt32 (p.length : ℤ)) with _ | q
  · rw [ha] at h
    simp at h
  · rw [ha] at h
    obtain ⟨off, ib⟩ := q
    dsimp only at h
    rcases hw : ib.writeAt p off with _ | r
    · rw [hw] at h
      simp at h
    · rw [hw] at h
      obtain ⟨nn, ib2⟩ := r
      simp only [Option.some.injEq, Prod.mk.injEq] at h
      obtain ⟨hn, hb⟩ := h
      subst hb
      unfold buffer.allocate at ha
      by_cases hz : goUInt32 (p.length : ℤ) = 0
      · rw [if_pos hz] at ha
        simp at ha
      · rw [if_neg hz] at ha
        simp only [Option.some.injEq, Prod.mk.injEq] at ha
        obtain ⟨hoff, hib⟩ := ha
        have hibsize : ib.size = b.internal.size + (goUInt32 (p.length : ℤ) : ℤ) := by
          rw [← hib, truncate_size]
          rfl
        unfold buffer.writeAt at hw
        rw [if_neg (by
          unfold buffer.Size
          rw [hibsize, ← hoff]
          unfold buffer.Size
          omega)] at hw
        by_cases hlt : ib.Size < off + (p.length : ℤ)
        · rw [if_pos hlt] at hw
          simp at hw
        · rw [if_neg hlt] at hw
          have hle := goUInt32_le p.length
          have hgeq : (goUInt32 (p.length : ℤ) : ℤ) = (p.length : ℤ) := by
            unfold buffer.Size at hlt
            rw [hibsize, ← hoff] at hlt
            unfold buffer.Size at hlt
            omega
          split at hw
          · simp only [Option.some.injEq, Prod.mk.injEq] at hw
            obtain ⟨hw1, hw2⟩ := hw
            subst hw2
            constructor
            · dsimp only
              rw [(writeBackOffTick_frame b.cap random).1]
            · dsimp only
              rw [hibsize, hgeq]
          · simp at hw

/-- Sizes after a successful `Buffer.Extend`: the shared counter grows by
the full 64-bit `sz`, the buffer length only by `uint32(sz)`. -/
theorem Extend_some_sizes (b : Buffer) (sz : ℤ) (off : ℤ) (b' : Buffer)
    (h : b.Extend sz = some (off, b')) :
    b'.cap.size = b.cap.size + sz ∧
    b'.internal.size = b.internal.size + (goUInt32 sz : ℤ) := by
  unfold Buffer.Extend at h
  rcases ha : b.internal.allocate (goUInt32 sz) with _ | q
  · rw [ha] at h
    simp at h
  · rw [ha] at h
    obtain ⟨o, ib⟩ := q
    simp only [Option.some.injEq, Prod.mk.injEq] at h
    obtain ⟨ho, hb⟩ := h
    subst hb
    unfold buffer.allocate at ha
    by_cases hz : goUInt32 sz = 0
    · rw [if_pos hz] at ha
      simp at ha
    · rw [if_neg hz] at ha
      simp only [Option.some.injEq, Prod.mk.injEq] at ha
      obtain ⟨ho2, hib⟩ := ha
      refine ⟨rfl, ?_⟩
      dsimp only
      rw [← hib, truncate_size]
      rfl

/-- One good `PoolState.step` preserves the counter invariant ("good": an
`extend` size lies in (0, 2^32)). -/
theorem step_counterInv (s : PoolState) (op : PoolOp) (s' : PoolState)
    (hgood : ∀ i sz, op = PoolOp.extend i sz → 0 < sz ∧ sz < 2 ^ 32)
    (hinv : s.counterInv) (h : s.step op = some s') : s'.counterInv := by
  unfold PoolState.step at h
  cases op with
  | write i p random =>
    dsimp only at h
    rcases hg : s.bufs[i]? with _ | ib
    · rw [hg] at h
      simp at h
    · rw [hg] at h
      dsimp only at h
      rcases hw : Buffer.Write ⟨s.cap, ib⟩ p random with _ | r
      · rw [hw] at h
        simp at h
      · rw [hw] at h
        obtain ⟨nn, b'⟩ := r
        simp only [Option.some.injEq] at h
        subst h
        obtain ⟨hc, hs⟩ := Write_some_sizes ⟨s.cap, ib⟩ p random nn b' hw
        unfold PoolState.counterInv at hinv ⊢
        dsimp only at hc hs ⊢
        rw [sum_map_size_set s.bufs i ib b'.internal hg]
        omega
  | extend i sz =>
    dsimp only at h
    rcases hg : s.bufs[i]? with _ | ib
    · rw [hg] at h
      simp at h
    · rw [hg] at h
      dsimp only at h
      rcases hw : Buffer.Extend ⟨s.cap, ib⟩ sz with _ | r
      · rw [hw] at h
        simp at h
      · rw [hw] at h
        obtain ⟨o, b'⟩ := r
        simp only [Option.some.injEq] at h
        subst h
        obtain ⟨hc, hs⟩ := Extend_some_sizes ⟨s.cap, ib⟩ sz o b' hw
        obtain ⟨hpos, hlt⟩ := hgood i sz rfl
        have hgeq := goUInt32_eq_of_lt sz hpos.le hlt
        unfold PoolState.counterInv at hinv ⊢
        dsimp only at hc hs ⊢
        rw [sum_map_size_set s.bufs i ib b'.internal hg]
        omega
  | reset i =>
    dsimp only at h
    rcases hg : s.bufs[i]? with _ | ib
    · rw [hg] at h
      simp at h
    · rw [hg] at h
      dsimp only at h
      simp only [Option.some.injEq] at h
      subst h
      unfold PoolState.counterInv at hinv ⊢
      dsimp only [Buffer.Reset, buffer.reset]
      rw [sum_map_size_set s.bufs i ib _ hg]
      dsimp only
      omega

/-- A good run preserves the counter invariant. -/
theorem run_counterInv (ops : List PoolOp) (s s' : PoolState)
    (hgood : ∀ op ∈ ops, ∀ i sz, op = PoolOp.extend i sz → 0 < sz ∧ sz < 2 ^ 32)
    (hinv : s.counterInv) (h : s.run ops = some s') : s'.counterInv := by
  induction ops generalizing s with
  | nil =>
    unfold PoolState.run at h
    simp only [Option.some.injEq] at h
    subst h
    exact hinv
  | cons op t ih =>
    unfold PoolState.run at h
    rcases hs : s.step op with _ | s1
    · rw [hs] at h
      simp at h
    · rw [hs] at h
      exact ih s1 (fun o ho => hgood o (List.mem_cons_of_mem _ ho))
        (step_counterInv s op s1 (hgood op (List.mem_cons_self op t)) hinv hs) h

/-- C6 counterexample: a single completed `Extend(2^32 + 1)` on a fresh
buffer adds 2^32 + 1 to the shared counter but only 1 byte to the buffer
(the grown amount passes through `uint32`), so the counter no longer equals
the sum of live buffer lengths. -/
theorem c6_counterexample :
    PoolState.counterInv ⟨⟨0, 100, 500, 0, 100, 1000000, false⟩, [⟨[], 0⟩]⟩ ∧
    (PoolState.run ⟨⟨0, 100, 500, 0, 100, 1000000, false⟩, [⟨[], 0⟩]⟩
        [PoolOp.extend 0 (2 ^ 32 + 1)]).map
      (fun t => (t.cap.size, (t.bufs.map buffer.size).sum)) = some (2 ^ 32 + 1, 1) ∧
    ((2 ^ 32 + 1 : ℤ) ≠ 1) := by
  refine ⟨by decide, by decide, by decide⟩

/-- C6 (amended): `Reset` always succeeds, zeroes the buffer and decrements
the shared counter by the pre-reset length; and the counter equals the sum
of all live buffer lengths after any completed sequence of
Write/Extend/Reset operations in which every `Extend` size lies in
(0, 2^32) (a `Write` completes only for data of such a length anyway, and
an `Extend` outside that range completes while breaking the invariant). -/
theorem c6_counter_invariant :
    (∀ b : Buffer, (b.Reset).1 = true ∧ (b.Reset).2.internal.size = 0 ∧
      (b.Reset).2.cap.size = b.cap.size - b.internal.size) ∧
    (∀ (ops : List PoolOp) (s s' : PoolState),
      (∀ op ∈ ops, ∀ i sz, op = PoolOp.extend i sz → 0 < sz ∧ sz < 2 ^ 32) →
      s.counterInv → s.run ops = some s' → s'.counterInv) :=
  ⟨fun _ => ⟨rfl, rfl, rfl⟩,
   fun ops s s' hgood hinv h => run_counterInv ops s s' hgood hinv h⟩

/-- Witness for C6: a concrete write/extend/reset sequence over two buffers
sharing one capacity ends with counter 3 = 0 + 3, the sum of the two live
lengths. -/
theorem c6_witness :
    PoolState.counterInv ⟨⟨3, 100, 500, 0, 100, 1000000, false⟩, [⟨[], 0⟩, ⟨[0,0,0], 3⟩]⟩ :=
  c6_counter_invariant.2
    [PoolOp.write 0 [5,6] 0, PoolOp.extend 1 3, PoolOp.reset 0]
    ⟨⟨0, 100, 500, 0, 100, 1000000, false⟩, [⟨[], 0⟩, ⟨[], 0⟩]⟩
    ⟨⟨3, 100, 500, 0, 100, 1000000, false⟩, [⟨[], 0⟩, ⟨[0,0,0], 3⟩]⟩
    (by
      intro op hop i sz heq
      subst heq
      simp at hop
      obtain ⟨h1, h2⟩ := hop
      subst h2
      norm_num)
    (by decide) (by rfl)

end BPool
